import Mathlib

/-!
Shallow embedding of the xHCI TRB (Transfer Request Block) codec:
the ring-entry record framework (src/ring/trb/mod.rs) and the Event-ring
variant catalog (src/ring/trb/event.rs).

A TRB is a fixed record of four 32-bit words.  Words are modelled as `Nat`;
every bit-level operation is embedded with the exact arithmetic the Rust
`bit_field` crate performs on `u32`/`u64` (`get_bits` masks to the range
width, so its result is reduced modulo the width regardless of the input).
Fallible conversions (`try_into().unwrap()`) are modelled as `Option`;
the `assert!` in `Link::set_ring_segment_pointer` is modelled by returning
`none` on the panicking path.
-/

deriving instance DecidableEq for Except

namespace Xhci

/-- The four 32-bit words of a TRB (`[u32; 4]` in the source). -/
structure Raw where
  w0 : Nat
  w1 : Nat
  w2 : Nat
  w3 : Nat
deriving DecidableEq

/-- Word lookup by index, as `raw[i]` in the source. -/
def Raw.get (r : Raw) : Nat → Nat
  | 0 => r.w0
  | 1 => r.w1
  | 2 => r.w2
  | _ => r.w3

/-- Replace word `i`, as `raw[i] = v` in the source. -/
def Raw.setWord (r : Raw) : Nat → Nat → Raw
  | 0, v => { r with w0 := v }
  | 1, v => { r with w1 := v }
  | 2, v => { r with w2 := v }
  | _, v => { r with w3 := v }

/-- `x.get_bits(lo..=hi)` of the `bit_field` crate: the bits `lo..=hi`
shifted down to position 0.  For a `u32` the crate computes
`(x << (31 - hi)) >> (31 - hi) >> lo`, i.e. `(x >> lo) mod 2^(hi+1-lo)`. -/
def getBits (x lo hi : Nat) : Nat :=
  (x >>> lo) % 2 ^ (hi + 1 - lo)

/-- `x.set_bit(i, b)` of the `bit_field` crate on a `u32`. -/
def setBit32 (x i : Nat) (b : Bool) : Nat :=
  if b then x ||| (1 <<< i) else x &&& ((2 ^ 32 - 1) ^^^ (1 <<< i))

/-- `x.set_bits(lo..=hi, v)` of the `bit_field` crate on a `u32`:
clear bits `lo..=hi`, then or in `v <<< lo`. -/
def setBits32 (x lo hi v : Nat) : Nat :=
  (x &&& ((2 ^ 32 - 1) ^^^ ((2 ^ (hi + 1 - lo) - 1) <<< lo))) ||| (v <<< lo)

/-- `try_into::<u8>()`: succeeds exactly when the value fits in 8 bits. -/
def tryIntoU8 (n : Nat) : Option Nat :=
  if n < 2 ^ 8 then some n else none

/-- `try_into::<u32>()`: succeeds exactly when the value fits in 32 bits. -/
def tryIntoU32 (n : Nat) : Option Nat :=
  if n < 2 ^ 32 then some n else none

/-- The Cycle Bit accessor `cycle_bit` generated by `add_trb!`:
bit 0 of word 3. -/
def Raw.cycle_bit (r : Raw) : Bool :=
  r.w3.testBit 0

/-- The Cycle Bit setter `set_cycle_bit` generated by `add_trb!`:
sets bit 0 of word 3. -/
def Raw.set_cycle_bit (r : Raw) (b : Bool) : Raw :=
  { r with w3 := setBit32 r.w3 0 b }

/-- The eight TRB shapes legal on the Event Ring, in the order the
`allowed!` invocation in event.rs declares them. -/
inductive EventVariant
  | transferEvent
  | commandCompletion
  | portStatusChange
  | bandwidthRequest
  | doorbell
  | hostController
  | deviceNotification
  | mfindexWrap
deriving DecidableEq, Fintype

/-- The `Type` discriminant value of each Event-ring variant
(`Type::TransferEvent = 32`, …, `Type::MfindexWrap = 39`). -/
def tagOf : EventVariant → Nat
  | .transferEvent => 32
  | .commandCompletion => 33
  | .portStatusChange => 34
  | .bandwidthRequest => 35
  | .doorbell => 36
  | .hostController => 37
  | .deviceNotification => 38
  | .mfindexWrap => 39

/-- The reserved bit ranges each `reserved!` invocation in event.rs
declares, as (word index, low bit, high bit) triples, in source order. -/
def reservedRanges : EventVariant → List (Nat × Nat × Nat)
  | .transferEvent => [(3, 1, 1), (3, 3, 9), (3, 21, 23)]
  | .commandCompletion => [(0, 0, 3), (3, 1, 9)]
  | .portStatusChange =>
      [(0, 0, 23), (1, 0, 31), (2, 0, 23), (3, 1, 9), (3, 16, 31)]
  | .bandwidthRequest =>
      [(0, 0, 31), (1, 0, 31), (2, 0, 23), (3, 1, 9), (3, 16, 23)]
  | .doorbell => [(0, 5, 31), (1, 0, 31), (2, 0, 23), (3, 1, 9)]
  | .hostController =>
      [(0, 0, 31), (1, 0, 31), (2, 0, 23), (3, 1, 9), (3, 16, 31)]
  | .deviceNotification =>
      [(0, 0, 31), (1, 0, 31), (2, 0, 23), (3, 1, 9), (3, 16, 31)]
  | .mfindexWrap => [(0, 0, 3), (2, 0, 23), (3, 1, 9), (3, 16, 23)]

/-- The TRB Type field: bits 10–15 of word 3 (read by every
`reserved!`-generated validator). -/
def trbType (r : Raw) : Nat :=
  getBits r.w3 10 15

/-- Body of the `TryFrom<[u32;4]>` implementation the `reserved!` macro
generates: check each declared reserved range in order, returning
`Err(raw)` on the first nonzero one, then check the TRB Type field
against the variant's tag; on success wrap the raw words unchanged. -/
def tryFromRanges : List (Nat × Nat × Nat) → Nat → Raw → Except Raw Raw
  | [], ty, raw => if trbType raw = ty then .ok raw else .error raw
  | (w, lo, hi) :: rest, ty, raw =>
      if getBits (raw.get w) lo hi ≠ 0 then .error raw
      else tryFromRanges rest ty raw

/-- The validator `reserved!` generates for variant `v`. -/
def tryFromVariant (v : EventVariant) (raw : Raw) : Except Raw Raw :=
  tryFromRanges (reservedRanges v) (tagOf v) raw

/-- `TransferEvent::try_from`. -/
def TransferEvent.tryFrom (raw : Raw) : Except Raw Raw :=
  tryFromVariant .transferEvent raw

/-- `CommandCompletion::try_from`. -/
def CommandCompletion.tryFrom (raw : Raw) : Except Raw Raw :=
  tryFromVariant .commandCompletion raw

/-- `PortStatusChange::try_from`. -/
def PortStatusChange.tryFrom (raw : Raw) : Except Raw Raw :=
  tryFromVariant .portStatusChange raw

/-- `BandwidthRequest::try_from`. -/
def BandwidthRequest.tryFrom (raw : Raw) : Except Raw Raw :=
  tryFromVariant .bandwidthRequest raw

/-- `Doorbell::try_from`. -/
def Doorbell.tryFrom (raw : Raw) : Except Raw Raw :=
  tryFromVariant .doorbell raw

/-- `HostController::try_from`. -/
def HostController.tryFrom (raw : Raw) : Except Raw Raw :=
  tryFromVariant .hostController raw

/-- `DeviceNotification::try_from`. -/
def DeviceNotification.tryFrom (raw : Raw) : Except Raw Raw :=
  tryFromVariant .deviceNotification raw

/-- `MfindexWrap::try_from`. -/
def MfindexWrap.tryFrom (raw : Raw) : Except Raw Raw :=
  tryFromVariant .mfindexWrap raw

/-- The `Allowed` tagged union over the eight Event-ring variants
(each payload is the validated raw record the Rust newtype wraps). -/
inductive Allowed
  | transferEvent (t : Raw)
  | commandCompletion (t : Raw)
  | portStatusChange (t : Raw)
  | bandwidthRequest (t : Raw)
  | doorbell (t : Raw)
  | hostController (t : Raw)
  | deviceNotification (t : Raw)
  | mfindexWrap (t : Raw)
deriving DecidableEq

/-- Wrap a raw record in the `Allowed` constructor of a given variant
(the `From<$variant> for Allowed` impls, indexed by variant). -/
def Allowed.ofVariant : EventVariant → Raw → Allowed
  | .transferEvent, t => .transferEvent t
  | .commandCompletion, t => .commandCompletion t
  | .portStatusChange, t => .portStatusChange t
  | .bandwidthRequest, t => .bandwidthRequest t
  | .doorbell, t => .doorbell t
  | .hostController, t => .hostController t
  | .deviceNotification, t => .deviceNotification t
  | .mfindexWrap, t => .mfindexWrap t

/-- Which variant an `Allowed` value holds. -/
def Allowed.variant : Allowed → EventVariant
  | .transferEvent _ => .transferEvent
  | .commandCompletion _ => .commandCompletion
  | .portStatusChange _ => .portStatusChange
  | .bandwidthRequest _ => .bandwidthRequest
  | .doorbell _ => .doorbell
  | .hostController _ => .hostController
  | .deviceNotification _ => .deviceNotification
  | .mfindexWrap _ => .mfindexWrap

/-- `Allowed::into_raw`: the wrapped words, whichever variant. -/
def Allowed.into_raw : Allowed → Raw
  | .transferEvent t => t
  | .commandCompletion t => t
  | .portStatusChange t => t
  | .bandwidthRequest t => t
  | .doorbell t => t
  | .hostController t => t
  | .deviceNotification t => t
  | .mfindexWrap t => t

/-- `TryFrom<[u32;4]> for Allowed` (event.rs): attempt each variant's
validator in declared order, returning the first success; if all fail,
return `Err(raw)`. -/
def Allowed.tryFrom (raw : Raw) : Except Raw Allowed :=
  match TransferEvent.tryFrom raw with
  | .ok t => .ok (.transferEvent t)
  | .error _ =>
  match CommandCompletion.tryFrom raw with
  | .ok t => .ok (.commandCompletion t)
  | .error _ =>
  match PortStatusChange.tryFrom raw with
  | .ok t => .ok (.portStatusChange t)
  | .error _ =>
  match BandwidthRequest.tryFrom raw with
  | .ok t => .ok (.bandwidthRequest t)
  | .error _ =>
  match Doorbell.tryFrom raw with
  | .ok t => .ok (.doorbell t)
  | .error _ =>
  match HostController.tryFrom raw with
  | .ok t => .ok (.hostController t)
  | .error _ =>
  match DeviceNotification.tryFrom raw with
  | .ok t => .ok (.deviceNotification t)
  | .error _ =>
  match MfindexWrap.tryFrom raw with
  | .ok t => .ok (.mfindexWrap t)
  | .error _ => .error raw

/-- `new()` generated by `impl_default_simply_adds_trb_id!`: start from
`[0; 4]` and call `set_trb_type`, which writes the variant's tag into
bits 10–15 of word 3. -/
def newTrb (v : EventVariant) : Raw :=
  { w0 := 0, w1 := 0, w2 := 0, w3 := setBits32 0 10 15 (tagOf v) }

/-- The TRB Completion Codes (event.rs): a closed enumeration of the
named outcomes.  Value 30 is intentionally absent. -/
inductive CompletionCode
  | Invalid
  | Success
  | DataBufferError
  | BabbleDetectedError
  | UsbTransactionError
  | TrbError
  | StallError
  | ResourceError
  | BandwidthError
  | NoSlotsAvailableError
  | InvalidStreamTypeError
  | SlotNotEnabledError
  | EndpointNotEnabledError
  | ShortPacket
  | RingUnderrun
  | RingOverrun
  | VfEventRingFullError
  | ParameterError
  | BandwidthOverrunError
  | ContextStateError
  | NoPingResponseError
  | EventRingFullError
  | IncompatibleDeviceError
  | MissedServiceError
  | CommandRingStopped
  | CommandAborted
  | Stopped
  | StoppedLengthInvalid
  | StoppedShortPacket
  | MaxExitLatencyTooLargeError
  | IsochBufferOverrun
  | EventLostError
  | UndefinedError
  | InvalidStreamIdError
  | SecondaryBandwidthError
  | SplitTransactionError
deriving DecidableEq

/-- `CompletionCode::from_u8` (the `FromPrimitive` derive): map each
discriminant value back to its constructor; every unmapped byte —
including the gap at 30 — yields `none`. -/
def CompletionCode.fromU8 : Nat → Option CompletionCode
  | 0 => some .Invalid
  | 1 => some .Success
  | 2 => some .DataBufferError
  | 3 => some .BabbleDetectedError
  | 4 => some .UsbTransactionError
  | 5 => some .TrbError
  | 6 => some .StallError
  | 7 => some .ResourceError
  | 8 => some .BandwidthError
  | 9 => some .NoSlotsAvailableError
  | 10 => some .InvalidStreamTypeError
  | 11 => some .SlotNotEnabledError
  | 12 => some .EndpointNotEnabledError
  | 13 => some .ShortPacket
  | 14 => some .RingUnderrun
  | 15 => some .RingOverrun
  | 16 => some .VfEventRingFullError
  | 17 => some .ParameterError
  | 18 => some .BandwidthOverrunError
  | 19 => some .ContextStateError
  | 20 => some .NoPingResponseError
  | 21 => some .EventRingFullError
  | 22 => some .IncompatibleDeviceError
  | 23 => some .MissedServiceError
  | 24 => some .CommandRingStopped
  | 25 => some .CommandAborted
  | 26 => some .Stopped
  | 27 => some .StoppedLengthInvalid
  | 28 => some .StoppedShortPacket
  | 29 => some .MaxExitLatencyTooLargeError
  | 31 => some .IsochBufferOverrun
  | 32 => some .EventLostError
  | 33 => some .UndefinedError
  | 34 => some .InvalidStreamIdError
  | 35 => some .SecondaryBandwidthError
  | 36 => some .SplitTransactionError
  | _ => none

/-- `completion_code()` generated by the `completion_code!` macro for
every event variant: read bits 24–31 of word 2, convert to `u8`
(`try_into().unwrap()`, modelled as `Option`), and look it up;
an unmapped byte is returned verbatim as the `Err` payload
(`from_u8(c).ok_or(c)`). -/
def completionCodeOf (r : Raw) : Option (Except Nat CompletionCode) :=
  match tryIntoU8 (getBits r.w2 24 31) with
  | none => none
  | some c =>
      match CompletionCode.fromU8 c with
      | some code => some (.ok code)
      | none => some (.error c)

/-- `PortStatusChange::port_id`: bits 24–31 of word 0, as `u8`. -/
def PortStatusChange.port_id (r : Raw) : Option Nat :=
  tryIntoU8 (getBits r.w0 24 31)

/-- `TransferEvent::trb_pointer`: `(word1 << 32) | word0`. -/
def TransferEvent.trb_pointer (r : Raw) : Nat :=
  (r.w1 <<< 32) ||| r.w0

/-- `TransferEvent::trb_transfer_length`: bits 0–23 of word 2. -/
def TransferEvent.trb_transfer_length (r : Raw) : Nat :=
  getBits r.w2 0 23

/-- `TransferEvent::event_data`: bit 2 of word 3. -/
def TransferEvent.event_data (r : Raw) : Bool :=
  r.w3.testBit 2

/-- `TransferEvent::endpoint_id`: bits 16–20 of word 3, as `u8`. -/
def TransferEvent.endpoint_id (r : Raw) : Option Nat :=
  tryIntoU8 (getBits r.w3 16 20)

/-- `TransferEvent::slot_id`: bits 24–31 of word 3, as `u8`. -/
def TransferEvent.slot_id (r : Raw) : Option Nat :=
  tryIntoU8 (getBits r.w3 24 31)

/-- `CommandCompletion::command_trb_pointer`: `(word1 << 32) | word0`. -/
def CommandCompletion.command_trb_pointer (r : Raw) : Nat :=
  (r.w1 <<< 32) ||| r.w0

/-- `CommandCompletion::command_completion_parameter`: bits 0–23 of word 2. -/
def CommandCompletion.command_completion_parameter (r : Raw) : Nat :=
  getBits r.w2 0 23

/-- `CommandCompletion::vf_id`: bits 16–23 of word 3, as `u8`. -/
def CommandCompletion.vf_id (r : Raw) : Option Nat :=
  tryIntoU8 (getBits r.w3 16 23)

/-- `CommandCompletion::slot_id`: bits 24–31 of word 3, as `u8`. -/
def CommandCompletion.slot_id (r : Raw) : Option Nat :=
  tryIntoU8 (getBits r.w3 24 31)

/-- `BandwidthRequest::slot_id`: bits 24–31 of word 3, as `u8`. -/
def BandwidthRequest.slot_id (r : Raw) : Option Nat :=
  tryIntoU8 (getBits r.w3 24 31)

/-- `Doorbell::db_reason`: bits 0–4 of word 0, as `u8`. -/
def Doorbell.db_reason (r : Raw) : Option Nat :=
  tryIntoU8 (getBits r.w0 0 4)

/-- `DeviceNotification::notification_type`: bits 4–7 of word 0, as `u8`. -/
def DeviceNotification.notification_type (r : Raw) : Option Nat :=
  tryIntoU8 (getBits r.w0 4 7)

/-- `DeviceNotification::device_notification_data`:
`l = word0.get_bits(8..=31)` widened to `u64`, `u = word1`, and the
result is `((u << 32) | l) >> 8`. -/
def DeviceNotification.device_notification_data (r : Raw) : Nat :=
  ((r.w1 <<< 32) ||| getBits r.w0 8 31) >>> 8

/-- `DeviceNotification::slot_id`: bits 24–31 of word 3, as `u8`. -/
def DeviceNotification.slot_id (r : Raw) : Option Nat :=
  tryIntoU8 (getBits r.w3 24 31)

/-- `Link::set_ring_segment_pointer` (mod.rs): asserts that `p` is
16-byte aligned — the panicking path is modelled as `none` — then stores
`p.get_bits(0..32)` into word 0 and `p.get_bits(32..64)` into word 1
(each via `try_into::<u32>().unwrap()`). -/
def Link.set_ring_segment_pointer (l : Raw) (p : Nat) : Option Raw :=
  if p % 16 = 0 then
    match tryIntoU32 (getBits p 0 31), tryIntoU32 (getBits p 32 63) with
    | some lo, some hi => some { l with w0 := lo, w1 := hi }
    | _, _ => none
  else none

/-- `Link::ring_segment_pointer`: `(word1 << 32) | word0`. -/
def Link.ring_segment_pointer (l : Raw) : Nat :=
  (l.w1 <<< 32) ||| l.w0

/-- The order in which `Allowed::try_from` attempts the eight variant
validators (the `try_from!` lines of event.rs, in source order). -/
def eventOrder : List EventVariant :=
  [.transferEvent, .commandCompletion, .portStatusChange, .bandwidthRequest,
   .doorbell, .hostController, .deviceNotification, .mfindexWrap]

/-- Spec-side acceptance predicate for one variant, following the spec's
words: the type-tag field (bits 10–15 of word 3) equals the variant's
tag and every declared reserved range reads zero. -/
def matchesVariant (v : EventVariant) (raw : Raw) : Bool :=
  (reservedRanges v).all (fun rg => getBits (raw.get rg.1) rg.2.1 rg.2.2 == 0)
    && (trbType raw == tagOf v)

/-- Toggle the Cycle Bit (bit 0 of word 3) of a raw record. -/
def flipCycle (r : Raw) : Raw :=
  { r with w3 := r.w3 ^^^ 1 }

/-- Set bit `i` of word `w` of a raw record (the framework's
`set_bit(i, true)` applied to one word). -/
def Raw.setBitIn (r : Raw) (w i : Nat) : Raw :=
  r.setWord w (setBit32 (r.get w) i true)

/-- The records producible for variant `v` by `new()` followed by an
arbitrary sequence of the variant's setters.  Event-ring variants expose
exactly one setter, `set_cycle_bit`. -/
inductive Reachable (v : EventVariant) : Raw → Prop
  | new : Reachable v (newTrb v)
  | cycle (r : Raw) (b : Bool) : Reachable v r → Reachable v (r.set_cycle_bit b)

/-- The variant a classification outcome selected, if it succeeded. -/
def exceptVariant : Except Raw Allowed → Option EventVariant
  | .ok a => some a.variant
  | .error _ => none

/-- Modelled from the spec: the reserved bit ranges the spec's variant
table declares for Device Notification — "all of words 0,1 except the
data bits" together with the field list (4-bit notification type in bits
4–7 of word 0, 56-bit data in bits 8–31 of word 0 and all of word 1)
leaves bits 0–3 of word 0 reserved; then bits 0–23 of word 2 and bits
1–9, 16–31 of word 3.  The source's `reserved!(DeviceNotification)`
table differs: it reserves all of words 0 and 1. -/
def specDeviceNotificationReserved : List (Nat × Nat × Nat) :=
  [(0, 0, 3), (2, 0, 23), (3, 1, 9), (3, 16, 31)]

/-! ### Bit-level lemmas about the embedded `bit_field` operations -/

theorem testBit_getBits (x lo hi j : Nat) :
    (getBits x lo hi).testBit j =
      (decide (j < hi + 1 - lo) && x.testBit (lo + j)) := by
  simp [getBits, Nat.testBit_mod_two_pow, Nat.testBit_shiftRight]

theorem getBits_lt (x lo hi : Nat) : getBits x lo hi < 2 ^ (hi + 1 - lo) :=
  Nat.mod_lt _ (Nat.two_pow_pos _)

theorem getBits_eq_zero_iff {x lo hi : Nat} :
    getBits x lo hi = 0 ↔ ∀ i, lo ≤ i → i ≤ hi → x.testBit i = false := by
  constructor
  · intro h i hlo hhi
    have hb := congrArg (fun n => n.testBit (i - lo)) h
    simp only [testBit_getBits, Nat.zero_testBit] at hb
    have h1 : i - lo < hi + 1 - lo := by omega
    have h2 : lo + (i - lo) = i := by omega
    rw [h2] at hb
    simpa [h1] using hb
  · intro h
    apply Nat.eq_of_testBit_eq
    intro j
    rw [testBit_getBits, Nat.zero_testBit]
    by_cases hj : j < hi + 1 - lo
    · have hfalse := h (lo + j) (by omega) (by omega)
      simp [hj, hfalse]
    · simp [hj]

theorem testBit_one_shl (i n : Nat) :
    (1 <<< i : Nat).testBit n = decide (n = i) := by
  rw [Nat.testBit_shiftLeft, show (1 : Nat) = 2 ^ 0 from rfl,
    Nat.testBit_two_pow]
  by_cases hge : i ≤ n
  · simp [hge]; omega
  · simp [hge]; omega

theorem getBits_xor_one (x lo hi : Nat) (h : 1 ≤ lo) :
    getBits (x ^^^ 1) lo hi = getBits x lo hi := by
  apply Nat.eq_of_testBit_eq
  intro j
  rw [testBit_getBits, testBit_getBits, Nat.testBit_xor]
  have h1 : (1 : Nat).testBit (lo + j) = false := by
    rw [show (1 : Nat) = 2 ^ 0 from rfl, Nat.testBit_two_pow]
    simp; omega
  rw [h1, Bool.xor_false]

theorem testBit_xor_one_of_pos (x i : Nat) (h : 1 ≤ i) :
    (x ^^^ 1).testBit i = x.testBit i := by
  rw [Nat.testBit_xor]
  have h1 : (1 : Nat).testBit i = false := by
    rw [show (1 : Nat) = 2 ^ 0 from rfl, Nat.testBit_two_pow]
    simp; omega
  rw [h1, Bool.xor_false]

theorem testBit_xor_one_zero (x : Nat) :
    (x ^^^ 1).testBit 0 = !x.testBit 0 := by
  rw [Nat.testBit_xor]
  have h1 : (1 : Nat).testBit 0 = true := by decide
  rw [h1, Bool.xor_true]

theorem getBits_or_shl_ne_zero (x i lo hi : Nat) (h1 : lo ≤ i) (h2 : i ≤ hi) :
    getBits (x ||| (1 <<< i)) lo hi ≠ 0 := by
  intro h
  have hbit := getBits_eq_zero_iff.mp h i h1 h2
  rw [Nat.testBit_or, testBit_one_shl] at hbit
  simp at hbit

theorem getBits_or_shl_outside (x i lo hi : Nat) (h : i < lo ∨ hi < i) :
    getBits (x ||| (1 <<< i)) lo hi = getBits x lo hi := by
  apply Nat.eq_of_testBit_eq
  intro j
  rw [testBit_getBits, testBit_getBits, Nat.testBit_or, testBit_one_shl]
  by_cases hj : j < hi + 1 - lo
  · have hne : lo + j ≠ i := by omega
    simp [hne]
  · simp [hj]

theorem shl_or_eq_add (a b w : Nat) (h : b < 2 ^ w) :
    (a <<< w) ||| b = 2 ^ w * a + b := by
  rw [Nat.shiftLeft_eq, Nat.mul_comm]
  exact (Nat.mul_add_lt_is_or h a).symm

/-! ### Characterizing the generated validators and the dispatcher -/

theorem matchesVariant_iff (v : EventVariant) (raw : Raw) :
    matchesVariant v raw = true ↔
      (∀ rg ∈ reservedRanges v, getBits (raw.get rg.1) rg.2.1 rg.2.2 = 0) ∧
        trbType raw = tagOf v := by
  simp [matchesVariant, List.all_eq_true]

theorem tryFromRanges_eq (ranges : List (Nat × Nat × Nat)) (ty : Nat)
    (raw : Raw) :
    tryFromRanges ranges ty raw =
      if (ranges.all fun rg => getBits (raw.get rg.1) rg.2.1 rg.2.2 == 0)
          && (trbType raw == ty)
        then .ok raw else .error raw := by
  induction ranges with
  | nil =>
      by_cases h : trbType raw = ty <;> simp [tryFromRanges, h]
  | cons rg rest ih =>
      obtain ⟨w, lo, hi⟩ := rg
      rw [tryFromRanges]
      by_cases h : getBits (raw.get w) lo hi = 0
      · have hb : (getBits (raw.get w) lo hi == 0) = true := by simpa using h
        rw [if_neg (by simpa using h), ih]
        exact if_congr (by simp [List.all_cons, hb]) rfl rfl
      · have hb : (getBits (raw.get w) lo hi == 0) = false := by simpa using h
        rw [if_pos (by simpa using h),
          if_neg (show ¬ ((((w, lo, hi) :: rest).all
              fun rg => getBits (raw.get rg.1) rg.2.1 rg.2.2 == 0)
            && (trbType raw == ty)) = true by simp [List.all_cons, hb])]

theorem tryFromVariant_eq (v : EventVariant) (raw : Raw) :
    tryFromVariant v raw =
      if matchesVariant v raw then .ok raw else .error raw := by
  rw [tryFromVariant, tryFromRanges_eq, matchesVariant]

theorem variant_ofVariant (v : EventVariant) (t : Raw) :
    (Allowed.ofVariant v t).variant = v := by
  cases v <;> rfl

theorem tryFrom_eq_find (raw : Raw) :
    Allowed.tryFrom raw =
      match eventOrder.find? (fun v => matchesVariant v raw) with
      | some v => .ok (Allowed.ofVariant v raw)
      | none => .error raw := by
  rw [Allowed.tryFrom, TransferEvent.tryFrom, CommandCompletion.tryFrom,
    PortStatusChange.tryFrom, BandwidthRequest.tryFrom, Doorbell.tryFrom,
    HostController.tryFrom, DeviceNotification.tryFrom, MfindexWrap.tryFrom]
  rw [tryFromVariant_eq, tryFromVariant_eq, tryFromVariant_eq,
    tryFromVariant_eq, tryFromVariant_eq, tryFromVariant_eq,
    tryFromVariant_eq, tryFromVariant_eq]
  cases h1 : matchesVariant .transferEvent raw
  case true => simp [eventOrder, List.find?, h1, Allowed.ofVariant]
  case false =>
  cases h2 : matchesVariant .commandCompletion raw
  case true => simp [eventOrder, List.find?, h1, h2, Allowed.ofVariant]
  case false =>
  cases h3 : matchesVariant .portStatusChange raw
  case true => simp [eventOrder, List.find?, h1, h2, h3, Allowed.ofVariant]
  case false =>
  cases h4 : matchesVariant .bandwidthRequest raw
  case true =>
    simp [eventOrder, List.find?, h1, h2, h3, h4, Allowed.ofVariant]
  case false =>
  cases h5 : matchesVariant .doorbell raw
  case true =>
    simp [eventOrder, List.find?, h1, h2, h3, h4, h5, Allowed.ofVariant]
  case false =>
  cases h6 : matchesVariant .hostController raw
  case true =>
    simp [eventOrder, List.find?, h1, h2, h3, h4, h5, h6, Allowed.ofVariant]
  case false =>
  cases h7 : matchesVariant .deviceNotification raw
  case true =>
    simp [eventOrder, List.find?, h1, h2, h3, h4, h5, h6, h7,
      Allowed.ofVariant]
  case false =>
  cases h8 : matchesVariant .mfindexWrap raw
  case true =>
    simp [eventOrder, List.find?, h1, h2, h3, h4, h5, h6, h7, h8,
      Allowed.ofVariant]
  case false =>
    simp [eventOrder, List.find?, h1, h2, h3, h4, h5, h6, h7, h8]

/-! ### Facts about the variant tables -/

theorem tagOf_inj : ∀ a b : EventVariant, tagOf a = tagOf b → a = b := by
  decide

theorem reservedRanges_word_le :
    ∀ v : EventVariant, ∀ rg ∈ reservedRanges v, rg.1 ≤ 3 := by
  decide

theorem reservedRanges_avoid_tag :
    ∀ v : EventVariant, ∀ rg ∈ reservedRanges v,
      rg.1 = 3 → rg.2.2 < 10 ∨ 15 < rg.2.1 := by
  decide

theorem reservedRanges_avoid_cycle :
    ∀ v : EventVariant, ∀ rg ∈ reservedRanges v, rg.1 = 3 → 1 ≤ rg.2.1 := by
  decide

theorem mem_eventOrder : ∀ v : EventVariant, v ∈ eventOrder := by
  decide

/-! ### Records reachable from `new()` by the variant's setters -/

theorem reachable_eq (v : EventVariant) (r : Raw) (h : Reachable v r) :
    r = newTrb v ∨ r = (newTrb v).set_cycle_bit true := by
  induction h with
  | new => exact Or.inl rfl
  | cycle s b _ ih =>
      rcases ih with hs | hs <;> subst hs <;> cases b <;> cases v <;>
        first
          | exact Or.inl (by decide)
          | exact Or.inr (by decide)

theorem tryFrom_reachable (v : EventVariant) (r : Raw) (h : Reachable v r) :
    Allowed.tryFrom r = .ok (Allowed.ofVariant v r) := by
  rcases reachable_eq v r h with hs | hs <;> subst hs <;> cases v <;> decide

/-! ### Effect of setting a single reserved bit -/

theorem get_setBitIn_self (r : Raw) (w i : Nat) (hw : w ≤ 3) :
    (r.setBitIn w i).get w = r.get w ||| (1 <<< i) := by
  interval_cases w <;> rfl

theorem w3_setBitIn (r : Raw) (w i : Nat) (hw : w ≤ 3) :
    (r.setBitIn w i).w3 = if w = 3 then r.w3 ||| (1 <<< i) else r.w3 := by
  interval_cases w <;> rfl

theorem matchesVariant_setBitIn_false (v : EventVariant) (r : Raw)
    (w lo hi i : Nat) (hmem : (w, lo, hi) ∈ reservedRanges v)
    (hmv : matchesVariant v r = true) (hlo : lo ≤ i) (hhi : i ≤ hi)
    (u : EventVariant) : matchesVariant u (r.setBitIn w i) = false := by
  have hw : w ≤ 3 := reservedRanges_word_le v (w, lo, hi) hmem
  have htag : trbType (r.setBitIn w i) = trbType r := by
    rw [trbType, trbType, w3_setBitIn r w i hw]
    by_cases h3 : w = 3
    · rw [if_pos h3]
      have havoid : hi < 10 ∨ 15 < lo :=
        reservedRanges_avoid_tag v (w, lo, hi) hmem h3
      refine getBits_or_shl_outside _ i 10 15 ?_
      rcases havoid with hle | hle
      · exact Or.inl (by omega)
      · exact Or.inr (by omega)
    · rw [if_neg h3]
  cases hcase : matchesVariant u (r.setBitIn w i)
  · rfl
  · exfalso
    have hu := (matchesVariant_iff u _).mp hcase
    by_cases huv : u = v
    · subst huv
      have hz := hu.1 (w, lo, hi) hmem
      rw [get_setBitIn_self r w i hw] at hz
      exact getBits_or_shl_ne_zero (r.get w) i lo hi hlo hhi hz
    · have h1 : trbType r = tagOf v := ((matchesVariant_iff v r).mp hmv).2
      exact huv (tagOf_inj u v (by rw [← hu.2, htag, h1]))

/-! ### Cycle-bit independence of classification -/

theorem getBits_flip_get (r : Raw) (w lo hi : Nat) (hw : w ≤ 3)
    (hcy : w = 3 → 1 ≤ lo) :
    getBits ((flipCycle r).get w) lo hi = getBits (r.get w) lo hi := by
  interval_cases w
  · rfl
  · rfl
  · rfl
  · exact getBits_xor_one r.w3 lo hi (hcy rfl)

theorem trbType_flip (r : Raw) : trbType (flipCycle r) = trbType r :=
  getBits_xor_one r.w3 10 15 (by omega)

theorem matchesVariant_flip (v : EventVariant) (r : Raw) :
    matchesVariant v (flipCycle r) = matchesVariant v r := by
  refine Bool.coe_iff_coe.mp ?_
  rw [matchesVariant_iff, matchesVariant_iff, trbType_flip]
  constructor
  · rintro ⟨hall, htag⟩
    refine ⟨fun rg hrg => ?_, htag⟩
    have := hall rg hrg
    rwa [getBits_flip_get r rg.1 rg.2.1 rg.2.2
      (reservedRanges_word_le v rg hrg)
      (reservedRanges_avoid_cycle v rg hrg)] at this
  · rintro ⟨hall, htag⟩
    refine ⟨fun rg hrg => ?_, htag⟩
    rw [getBits_flip_get r rg.1 rg.2.1 rg.2.2
      (reservedRanges_word_le v rg hrg)
      (reservedRanges_avoid_cycle v rg hrg)]
    exact hall rg hrg

theorem find_flip (r : Raw) :
    eventOrder.find? (fun v => matchesVariant v (flipCycle r)) =
      eventOrder.find? (fun v => matchesVariant v r) := by
  simp only [eventOrder, List.find?, matchesVariant_flip]

theorem exceptVariant_flip (r : Raw) :
    exceptVariant (Allowed.tryFrom (flipCycle r)) =
      exceptVariant (Allowed.tryFrom r) := by
  rw [tryFrom_eq_find, tryFrom_eq_find, find_flip]
  cases h : eventOrder.find? (fun v => matchesVariant v r) <;>
    simp [exceptVariant, variant_ofVariant]

/-! ### Totality of the narrow-field accessors -/

theorem tryIntoU8_getBits (x lo hi : Nat) (h : hi + 1 - lo ≤ 8) :
    tryIntoU8 (getBits x lo hi) = some (getBits x lo hi) := by
  rw [tryIntoU8, if_pos]
  exact lt_of_lt_of_le (getBits_lt x lo hi)
    (Nat.pow_le_pow_right (by omega) h)

theorem completionCodeOf_eq (r : Raw) :
    completionCodeOf r =
      some (match CompletionCode.fromU8 (getBits r.w2 24 31) with
        | some code => .ok code
        | none => .error (getBits r.w2 24 31)) := by
  rw [completionCodeOf, tryIntoU8_getBits r.w2 24 31 (by omega)]
  cases hc : CompletionCode.fromU8 (getBits r.w2 24 31) <;> simp [hc]

/-! ### 64-bit pointer recombination -/

theorem pointer_roundtrip (p : Nat) :
    ((p / 2 ^ 32) <<< 32) ||| (p % 2 ^ 32) = p := by
  rw [shl_or_eq_add _ _ _ (Nat.mod_lt _ (by positivity))]
  exact Nat.div_add_mod p (2 ^ 32)

theorem getBits_lo64 (p : Nat) : getBits p 0 31 = p % 2 ^ 32 := by
  rw [getBits, Nat.shiftRight_zero]

theorem div_two_pow_32_lt (p : Nat) (hp : p < 2 ^ 64) :
    p / 2 ^ 32 < 2 ^ 32 := by
  refine Nat.div_lt_of_lt_mul ?_
  calc p < 2 ^ 64 := hp
    _ = 2 ^ 32 * 2 ^ 32 := by norm_num

theorem getBits_hi64 (p : Nat) (hp : p < 2 ^ 64) :
    getBits p 32 63 = p / 2 ^ 32 := by
  rw [getBits, Nat.shiftRight_eq_div_pow]
  exact Nat.mod_eq_of_lt (div_two_pow_32_lt p hp)

theorem matches_of_tryFromVariant_ok (v : EventVariant) (r s : Raw)
    (h : tryFromVariant v r = .ok s) :
    matchesVariant v r = true ∧ s = r := by
  rw [tryFromVariant_eq] at h
  cases hc : matchesVariant v r <;> rw [hc] at h <;> simp at h
  exact ⟨rfl, h.symm⟩

theorem tryFrom_error_of_all_false (r : Raw)
    (h : ∀ v : EventVariant, matchesVariant v r = false) :
    Allowed.tryFrom r = .error r := by
  rw [tryFrom_eq_find]
  have hf : eventOrder.find? (fun v => matchesVariant v r) = none :=
    List.find?_eq_none.mpr (fun v _ => by simp [h v])
  rw [hf]

/-! ### The claims -/

/-- C1: `Allowed::try_from` attempts the eight variant validators in the
fixed declared order (TransferEvent, CommandCompletion, PortStatusChange,
BandwidthRequest, Doorbell, HostController, DeviceNotification,
MfindexWrap) and returns `Ok` of the first variant whose type-tag field
(bits 10–15 of word 3) equals that variant's tag and whose declared
reserved ranges all read zero; for every raw record matching no variant
it returns an error carrying exactly the original 4 words unchanged. -/
theorem claim_c1 (raw : Raw) :
    Allowed.tryFrom raw =
      match eventOrder.find? (fun v => matchesVariant v raw) with
      | some v => .ok (Allowed.ofVariant v raw)
      | none => .error raw :=
  tryFrom_eq_find raw

/-- C2: every record obtained from `V::new()` followed by an arbitrary
sequence of the variant's setters, converted to its raw words and
classified back through `Allowed::try_from`, yields `Ok` of the same
variant wrapping exactly the same words — so every field accessor
(cycle bit and completion code included) reads the same value. -/
theorem claim_c2 (v : EventVariant) (r : Raw) (h : Reachable v r) :
    Allowed.tryFrom r = .ok (Allowed.ofVariant v r) ∧
      (Allowed.ofVariant v r).into_raw = r ∧
      (Allowed.ofVariant v r).variant = v :=
  ⟨tryFrom_reachable v r h, by cases v <;> rfl, variant_ofVariant v r⟩

/-- Witness for C2 at `TransferEvent::new().set_cycle_bit(true)`. -/
theorem claim_c2_witness :
    Allowed.tryFrom ((newTrb .transferEvent).set_cycle_bit true) =
        .ok (Allowed.ofVariant .transferEvent
          ((newTrb .transferEvent).set_cycle_bit true)) ∧
      (Allowed.ofVariant .transferEvent
          ((newTrb .transferEvent).set_cycle_bit true)).into_raw =
        (newTrb .transferEvent).set_cycle_bit true ∧
      (Allowed.ofVariant .transferEvent
          ((newTrb .transferEvent).set_cycle_bit true)).variant =
        .transferEvent :=
  claim_c2 .transferEvent _ (Reachable.cycle _ true Reachable.new)

/-- C3 as stated is false: with word 0 = 0xFF00 (nonzero only in bits
8–15) and word 1 = 0, `device_notification_data` returns 0, while the
claimed formula `(word1 << 24) | (word0 >> 8)` gives 0xFF. -/
theorem claim_c3_counterexample :
    ¬ (DeviceNotification.device_notification_data ⟨0xFF00, 0, 0, 0⟩ =
        ((0 : Nat) <<< 24) ||| (0xFF00 >>> 8)) := by
  decide

/-- C3 amended: `device_notification_data` places the already-extracted
24-bit field (bits 8–31 of word 0) in a 32-bit slot below word 1 and
shifts the 64-bit concatenation right by 8, so it equals
`(word1 << 24) | (word0 >> 16)` — bits 8–15 of word 0 are dropped. -/
theorem claim_c3_amended (r : Raw) (h0 : r.w0 < 2 ^ 32) :
    DeviceNotification.device_notification_data r =
      (r.w1 <<< 24) ||| (r.w0 >>> 16) := by
  have hl24 : r.w0 >>> 8 < 2 ^ 24 := by
    rw [Nat.shiftRight_eq_div_pow]
    refine Nat.div_lt_of_lt_mul ?_
    calc r.w0 < 2 ^ 32 := h0
      _ = 2 ^ 8 * 2 ^ 24 := by norm_num
  have h16 : r.w0 >>> 16 < 2 ^ 24 := by
    rw [Nat.shiftRight_eq_div_pow]
    refine Nat.div_lt_of_lt_mul ?_
    calc r.w0 < 2 ^ 32 := h0
      _ ≤ 2 ^ 16 * 2 ^ 24 := by norm_num
  have hl : getBits r.w0 8 31 = r.w0 >>> 8 := Nat.mod_eq_of_lt hl24
  rw [DeviceNotification.device_notification_data, hl,
    shl_or_eq_add r.w1 (r.w0 >>> 8) 32 (lt_trans hl24 (by norm_num)),
    shl_or_eq_add r.w1 (r.w0 >>> 16) 24 h16,
    Nat.shiftRight_eq_div_pow,
    show (2 : Nat) ^ 32 * r.w1 = (2 ^ 24 * r.w1) * 2 ^ 8 by ring,
    Nat.add_comm ((2 ^ 24 * r.w1) * 2 ^ 8) (r.w0 >>> 8),
    Nat.add_mul_div_right _ _ (show (0 : Nat) < 2 ^ 8 by norm_num),
    ← Nat.shiftRight_eq_div_pow, ← Nat.shiftRight_add]
  exact Nat.add_comm _ _

/-- Witness for the amended C3 at word 0 = 0xFF00, word 1 = 5. -/
theorem claim_c3_amended_witness :
    DeviceNotification.device_notification_data ⟨0xFF00, 5, 0, 0⟩ =
      ((5 : Nat) <<< 24) ||| (0xFF00 >>> 16) :=
  claim_c3_amended ⟨0xFF00, 5, 0, 0⟩ (by decide)

/-- C4: the record `[0x10000, 0, 0, 38 << 10]` carries the
DeviceNotification tag, nonzero notification data (bit 16 of word 0, a
data bit per the spec), and zeros in every range the spec declares
reserved, yet the source's validator — which reserves all of words 0
and 1 — rejects it, and `Allowed::try_from` fails returning the raw
words.  The code contradicts the spec's field layout (and renders its
own `device_notification_data`/`notification_type` accessors constantly
zero on validated records). -/
theorem claim_c4_code_bug :
    (specDeviceNotificationReserved.all fun rg =>
        getBits ((⟨0x10000, 0, 0, 38 <<< 10⟩ : Raw).get rg.1)
          rg.2.1 rg.2.2 == 0) = true ∧
    trbType ⟨0x10000, 0, 0, 38 <<< 10⟩ = tagOf .deviceNotification ∧
    DeviceNotification.device_notification_data
      ⟨0x10000, 0, 0, 38 <<< 10⟩ ≠ 0 ∧
    DeviceNotification.tryFrom ⟨0x10000, 0, 0, 38 <<< 10⟩ =
      .error ⟨0x10000, 0, 0, 38 <<< 10⟩ ∧
    Allowed.tryFrom ⟨0x10000, 0, 0, 38 <<< 10⟩ =
      .error ⟨0x10000, 0, 0, 38 <<< 10⟩ := by
  decide

/-- C5: take any record a variant's validator accepts and set any single
bit inside that variant's declared reserved ranges: the variant's
`try_from` now fails, `Allowed::try_from` fails as well, and both return
the modified raw record itself as the error value. -/
theorem claim_c5 (v : EventVariant) (r : Raw) (w lo hi i : Nat)
    (hacc : tryFromVariant v r = .ok r)
    (hmem : (w, lo, hi) ∈ reservedRanges v) (hlo : lo ≤ i) (hhi : i ≤ hi) :
    tryFromVariant v (r.setBitIn w i) = .error (r.setBitIn w i) ∧
      Allowed.tryFrom (r.setBitIn w i) = .error (r.setBitIn w i) := by
  have hmv : matchesVariant v r = true :=
    (matches_of_tryFromVariant_ok v r r hacc).1
  have hfalse := matchesVariant_setBitIn_false v r w lo hi i hmem hmv hlo hhi
  refine ⟨?_, tryFrom_error_of_all_false _ hfalse⟩
  rw [tryFromVariant_eq, if_neg (by simp [hfalse v])]

/-- Witness for C5: PortStatusChange accepts its `new()` record; setting
bit 5 of word 0 (inside the reserved range `[0] 0..=23`) breaks it. -/
theorem claim_c5_witness :
    tryFromVariant .portStatusChange
        ((newTrb .portStatusChange).setBitIn 0 5) =
      .error ((newTrb .portStatusChange).setBitIn 0 5) ∧
    Allowed.tryFrom ((newTrb .portStatusChange).setBitIn 0 5) =
      .error ((newTrb .portStatusChange).setBitIn 0 5) :=
  claim_c5 .portStatusChange (newTrb .portStatusChange) 0 0 23 5
    (by decide) (by decide) (by decide) (by decide)

/-- C6: `completion_code()` reads bits 24–31 of word 2 and looks the byte
up in the CompletionCode enumeration, returning the unmatched raw byte as
the error: byte 1 decodes to `Ok(Success)`, byte 30 (the gap) to
`Err(30)`, byte 255 to `Err(255)`; generally a mapped byte yields `Ok` of
its code and an unmapped byte yields `Err` of exactly that byte. -/
theorem claim_c6 (r : Raw) :
    (getBits r.w2 24 31 = 1 → completionCodeOf r = some (.ok .Success)) ∧
    (getBits r.w2 24 31 = 30 → completionCodeOf r = some (.error 30)) ∧
    (getBits r.w2 24 31 = 255 → completionCodeOf r = some (.error 255)) ∧
    (∀ c, CompletionCode.fromU8 (getBits r.w2 24 31) = some c →
      completionCodeOf r = some (.ok c)) ∧
    (CompletionCode.fromU8 (getBits r.w2 24 31) = none →
      completionCodeOf r = some (.error (getBits r.w2 24 31))) := by
  refine ⟨fun h => ?_, fun h => ?_, fun h => ?_, fun c hc => ?_, fun h => ?_⟩
  · rw [completionCodeOf_eq, h]; decide
  · rw [completionCodeOf_eq, h]; decide
  · rw [completionCodeOf_eq, h]; decide
  · rw [completionCodeOf_eq, hc]
  · rw [completionCodeOf_eq, h]

/-- Witness for C6 at completion bytes 1, 30 and 255 in word 2. -/
theorem claim_c6_witness :
    completionCodeOf ⟨0, 0, 0x01000000, 0⟩ = some (.ok .Success) ∧
    completionCodeOf ⟨0, 0, 0x1E000000, 0⟩ = some (.error 30) ∧
    completionCodeOf ⟨0, 0, 0xFF000000, 0⟩ = some (.error 255) :=
  ⟨(claim_c6 ⟨0, 0, 0x01000000, 0⟩).1 (by decide),
   (claim_c6 ⟨0, 0, 0x1E000000, 0⟩).2.1 (by decide),
   (claim_c6 ⟨0, 0, 0xFF000000, 0⟩).2.2.1 (by decide)⟩

/-- C7: no raw record is accepted by two distinct variants' validators,
and the record `A::new()` produces always fails `B`'s `try_from` for
every distinct pair (A, B). -/
theorem claim_c7 (a b : EventVariant) (hab : a ≠ b) (r : Raw) :
    (¬ ∃ s t, tryFromVariant a r = .ok s ∧ tryFromVariant b r = .ok t) ∧
      tryFromVariant b (newTrb a) = .error (newTrb a) := by
  constructor
  · rintro ⟨s, t, ha, hb⟩
    have hma := (matches_of_tryFromVariant_ok a r s ha).1
    have hmb := (matches_of_tryFromVariant_ok b r t hb).1
    have h1 : trbType r = tagOf a := ((matchesVariant_iff a r).mp hma).2
    have h2 : trbType r = tagOf b := ((matchesVariant_iff b r).mp hmb).2
    exact hab (tagOf_inj a b (by rw [← h1, ← h2]))
  · rw [tryFromVariant_eq, if_neg]
    intro htrue
    have h2 : trbType (newTrb a) = tagOf b :=
      ((matchesVariant_iff b _).mp htrue).2
    have h1 : trbType (newTrb a) = tagOf a := by cases a <;> decide
    exact hab (tagOf_inj a b (by rw [← h1, h2]))

/-- Witness for C7 at (TransferEvent, CommandCompletion) on
`TransferEvent::new()`. -/
theorem claim_c7_witness :
    (¬ ∃ s t,
        tryFromVariant .transferEvent (newTrb .transferEvent) = .ok s ∧
        tryFromVariant .commandCompletion (newTrb .transferEvent) = .ok t) ∧
      tryFromVariant .commandCompletion (newTrb .transferEvent) =
        .error (newTrb .transferEvent) :=
  claim_c7 .transferEvent .commandCompletion (by decide)
    (newTrb .transferEvent)

/-- C8: flipping bit 0 of word 3 (the cycle bit) changes neither the
outcome of `Allowed` classification (same success/failure, same variant
chosen) nor the value of any field accessor other than `cycle_bit`
itself, which toggles. -/
theorem claim_c8 (r : Raw) :
    exceptVariant (Allowed.tryFrom (flipCycle r)) =
        exceptVariant (Allowed.tryFrom r) ∧
    (flipCycle r).cycle_bit = !r.cycle_bit ∧
    TransferEvent.trb_pointer (flipCycle r) =
        TransferEvent.trb_pointer r ∧
    TransferEvent.trb_transfer_length (flipCycle r) =
        TransferEvent.trb_transfer_length r ∧
    TransferEvent.event_data (flipCycle r) = TransferEvent.event_data r ∧
    TransferEvent.endpoint_id (flipCycle r) =
        TransferEvent.endpoint_id r ∧
    TransferEvent.slot_id (flipCycle r) = TransferEvent.slot_id r ∧
    CommandCompletion.command_trb_pointer (flipCycle r) =
        CommandCompletion.command_trb_pointer r ∧
    CommandCompletion.command_completion_parameter (flipCycle r) =
        CommandCompletion.command_completion_parameter r ∧
    CommandCompletion.vf_id (flipCycle r) = CommandCompletion.vf_id r ∧
    CommandCompletion.slot_id (flipCycle r) =
        CommandCompletion.slot_id r ∧
    PortStatusChange.port_id (flipCycle r) = PortStatusChange.port_id r ∧
    BandwidthRequest.slot_id (flipCycle r) = BandwidthRequest.slot_id r ∧
    Doorbell.db_reason (flipCycle r) = Doorbell.db_reason r ∧
    DeviceNotification.notification_type (flipCycle r) =
        DeviceNotification.notification_type r ∧
    DeviceNotification.device_notification_data (flipCycle r) =
        DeviceNotification.device_notification_data r ∧
    DeviceNotification.slot_id (flipCycle r) =
        DeviceNotification.slot_id r ∧
    completionCodeOf (flipCycle r) = completionCodeOf r := by
  refine ⟨exceptVariant_flip r, testBit_xor_one_zero r.w3, rfl, rfl,
    testBit_xor_one_of_pos r.w3 2 (by omega),
    congrArg tryIntoU8 (getBits_xor_one r.w3 16 20 (by omega)),
    congrArg tryIntoU8 (getBits_xor_one r.w3 24 31 (by omega)),
    rfl, rfl,
    congrArg tryIntoU8 (getBits_xor_one r.w3 16 23 (by omega)),
    congrArg tryIntoU8 (getBits_xor_one r.w3 24 31 (by omega)),
    rfl,
    congrArg tryIntoU8 (getBits_xor_one r.w3 24 31 (by omega)),
    rfl, rfl, rfl,
    congrArg tryIntoU8 (getBits_xor_one r.w3 24 31 (by omega)),
    rfl⟩

/-- C9: `Link::set_ring_segment_pointer` panics (fatal contract
violation) on every pointer that is not 16-byte aligned, and on every
aligned pointer stores it across words 0–1 without aborting, so that
`ring_segment_pointer` reads back exactly `p`. -/
theorem claim_c9 (l : Raw) (p : Nat) (hp : p < 2 ^ 64) :
    (p % 16 ≠ 0 → Link.set_ring_segment_pointer l p = none) ∧
    (p % 16 = 0 →
      Link.set_ring_segment_pointer l p =
        some { l with w0 := p % 2 ^ 32, w1 := p / 2 ^ 32 } ∧
      Link.ring_segment_pointer
        { l with w0 := p % 2 ^ 32, w1 := p / 2 ^ 32 } = p) := by
  constructor
  · intro h
    rw [Link.set_ring_segment_pointer, if_neg h]
  · intro h
    have e1 : tryIntoU32 (getBits p 0 31) = some (p % 2 ^ 32) := by
      rw [getBits_lo64, tryIntoU32,
        if_pos (Nat.mod_lt _ (by positivity))]
    have e2 : tryIntoU32 (getBits p 32 63) = some (p / 2 ^ 32) := by
      rw [getBits_hi64 p hp, tryIntoU32,
        if_pos (div_two_pow_32_lt p hp)]
    refine ⟨?_, pointer_roundtrip p⟩
    rw [Link.set_ring_segment_pointer, if_pos h, e1, e2]

/-- Witness for C9: pointer 8 (unaligned) aborts; pointer 32 (aligned)
is stored and read back. -/
theorem claim_c9_witness :
    Link.set_ring_segment_pointer ⟨0, 0, 0, 0⟩ 8 = none ∧
    Link.set_ring_segment_pointer ⟨0, 0, 0, 0⟩ 32 =
      some { (⟨0, 0, 0, 0⟩ : Raw) with
        w0 := 32 % 2 ^ 32, w1 := 32 / 2 ^ 32 } ∧
    Link.ring_segment_pointer
      { (⟨0, 0, 0, 0⟩ : Raw) with
        w0 := 32 % 2 ^ 32, w1 := 32 / 2 ^ 32 } = 32 :=
  ⟨(claim_c9 ⟨0, 0, 0, 0⟩ 8 (by decide)).1 (by decide),
   ((claim_c9 ⟨0, 0, 0, 0⟩ 32 (by decide)).2 (by decide)).1,
   ((claim_c9 ⟨0, 0, 0, 0⟩ 32 (by decide)).2 (by decide)).2⟩

/-- C10: every narrow-field accessor that converts its extracted range
to `u8` is total — the extracted value always fits in 8 bits, so the
`unwrap` can never panic: the conversion yields `some` for every
possible record content. -/
theorem claim_c10 (r : Raw) :
    tryIntoU8 (getBits r.w2 24 31) = some (getBits r.w2 24 31) ∧
    (completionCodeOf r).isSome = true ∧
    (TransferEvent.slot_id r).isSome = true ∧
    (TransferEvent.endpoint_id r).isSome = true ∧
    (PortStatusChange.port_id r).isSome = true ∧
    (CommandCompletion.vf_id r).isSome = true ∧
    (CommandCompletion.slot_id r).isSome = true ∧
    (BandwidthRequest.slot_id r).isSome = true ∧
    (Doorbell.db_reason r).isSome = true ∧
    (DeviceNotification.notification_type r).isSome = true ∧
    (DeviceNotification.slot_id r).isSome = true := by
  refine ⟨tryIntoU8_getBits r.w2 24 31 (by omega), ?_, ?_, ?_, ?_, ?_,
    ?_, ?_, ?_, ?_, ?_⟩
  · rw [completionCodeOf_eq]; rfl
  · rw [TransferEvent.slot_id, tryIntoU8_getBits _ 24 31 (by omega)]; rfl
  · rw [TransferEvent.endpoint_id,
      tryIntoU8_getBits _ 16 20 (by omega)]; rfl
  · rw [PortStatusChange.port_id,
      tryIntoU8_getBits _ 24 31 (by omega)]; rfl
  · rw [CommandCompletion.vf_id,
      tryIntoU8_getBits _ 16 23 (by omega)]; rfl
  · rw [CommandCompletion.slot_id,
      tryIntoU8_getBits _ 24 31 (by omega)]; rfl
  · rw [BandwidthRequest.slot_id,
      tryIntoU8_getBits _ 24 31 (by omega)]; rfl
  · rw [Doorbell.db_reason, tryIntoU8_getBits _ 0 4 (by omega)]; rfl
  · rw [DeviceNotification.notification_type,
      tryIntoU8_getBits _ 4 7 (by omega)]; rfl
  · rw [DeviceNotification.slot_id,
      tryIntoU8_getBits _ 24 31 (by omega)]; rfl

end Xhci
